import Mathlib

/-!
# The Julia sample of SimpleOpenCLSamples (`samples/04_julia/main.cpp`)

A shallow embedding of the OpenCL kernel `Julia`, of the host functions `go`,
`checkResults` and `main`, and of the arithmetic they rest on:

* `float` is IEEE 754 binary32 with round-to-nearest-even (`F32`), every
  operation computed exactly on integers and then rounded once: `+`, `-`, `*`,
  `/` and `sqrt` are correctly rounded and no product is fused with a sum;
* `int` is a 32-bit two's complement integer: a narrowing conversion wraps
  (`toInt32`), an overflowing signed operation is undefined (`checkedInt32`,
  and the counter of the loop in `go`);
* `size_t` and `long` are 64 bits wide (LP64);
* undefined behaviour is the result `none`: signed overflow, a store outside
  the buffer, an index outside `platforms` or `devices`;
* the OpenCL calls are taken to succeed, the queue is in order, and a dispatch
  has taken its effect on the buffer when the next call is made; its
  work-items are run row by row, which is one of the orders a device may use.
-/

set_option maxRecDepth 100000

namespace JuliaSample

/-! ## binary32 arithmetic -/

/-- Number of binary digits of `n`, by halving at most `fuel` times. -/
def bitLenAux : Nat → Nat → Nat
  | 0, _ => 0
  | fuel + 1, n => if n = 0 then 0 else bitLenAux fuel (n / 2) + 1

/-- Number of binary digits of `n` (`0` for `0`). -/
def bitLen (n : Nat) : Nat := bitLenAux n n

/-- Integer square root by bits: adds `2^k` to `r` while the square fits. -/
def isqrtAux : Nat → Nat → Nat → Nat
  | 0, _, r => r
  | k + 1, n, r => if (r + 2 ^ k) * (r + 2 ^ k) ≤ n then isqrtAux k n (r + 2 ^ k) else isqrtAux k n r

/-- Largest `s` with `s * s ≤ n`. -/
def isqrt (n : Nat) : Nat := isqrtAux (bitLen n / 2 + 1) n 0

/-- A binary32 value: NaN, a signed infinity, or the finite number
`(-1)^neg * m * 2^e`.  The operations below return finite values in canonical
form: `m < 2^24`, `-149 ≤ e ≤ 104`, and `2^23 ≤ m` unless `e = -149`. -/
inductive F32 where
  | nan : F32
  | inf (neg : Bool) : F32
  | fin (neg : Bool) (m : Nat) (e : Int) : F32
deriving DecidableEq

namespace F32

/-- Final step of rounding: a significand that reached `2^24` is renormalised,
an exponent above 104 overflows to infinity. -/
def pack (neg : Bool) (q : Nat) (e : Int) : F32 :=
  if q = 2 ^ 24 then (if 104 < e + 1 then .inf neg else .fin neg (2 ^ 23) (e + 1))
  else if q ≠ 0 ∧ 104 < e then .inf neg
  else .fin neg q e

/-- Round the exact number `(-1)^neg * m * 2^e` to binary32, to nearest, ties
to even, with gradual underflow. -/
def round (neg : Bool) (m : Nat) (e : Int) : F32 :=
  if m = 0 then .fin neg 0 (-149)
  else
    let t : Int := max (e + (bitLen m : Int) - 24) (-149)
    if t ≤ e then pack neg (m * 2 ^ (e - t).toNat) t
    else
      let s := (t - e).toNat
      let q := m / 2 ^ s
      let r := m % 2 ^ s
      let half := 2 ^ (s - 1)
      pack neg (if half < r ∨ (r = half ∧ q % 2 = 1) then q + 1 else q) t

/-- The integer `(-1)^neg * m * 2^(e - e0)`, for `e0 ≤ e`. -/
def signedAt (e0 : Int) (neg : Bool) (m : Nat) (e : Int) : Int :=
  if neg then -((m * 2 ^ (e - e0).toNat : Nat) : Int) else ((m * 2 ^ (e - e0).toNat : Nat) : Int)

/-- Conversion of an integer to binary32, as in `(float)w`. -/
def ofInt (w : Int) : F32 := round (decide (w < 0)) w.natAbs 0

/-- Unary minus. -/
def neg : F32 → F32
  | .nan => .nan
  | .inf s => .inf (!s)
  | .fin s m e => .fin (!s) m e

/-- Binary32 addition. -/
def add (a b : F32) : F32 :=
  match a, b with
  | .nan, _ => .nan
  | _, .nan => .nan
  | .inf s, .inf t => if s = t then .inf s else .nan
  | .inf s, .fin _ _ _ => .inf s
  | .fin _ _ _, .inf t => .inf t
  | .fin n1 m1 e1, .fin n2 m2 e2 =>
    let v : Int := signedAt (min e1 e2) n1 m1 e1 + signedAt (min e1 e2) n2 m2 e2
    if v = 0 then .fin (n1 && n2) 0 (-149)
    else round (decide (v < 0)) v.natAbs (min e1 e2)

/-- Binary32 subtraction. -/
def sub (a b : F32) : F32 := add a (neg b)

/-- Binary32 multiplication. -/
def mul (a b : F32) : F32 :=
  match a, b with
  | .nan, _ => .nan
  | _, .nan => .nan
  | .inf s, .inf t => .inf (xor s t)
  | .inf s, .fin t m _ => if m = 0 then .nan else .inf (xor s t)
  | .fin s m _, .inf t => if m = 0 then .nan else .inf (xor s t)
  | .fin n1 m1 e1, .fin n2 m2 e2 => round (xor n1 n2) (m1 * m2) (e1 + e2)

/-- Binary32 division: the quotient is computed to 26 or more bits plus a
sticky bit and then rounded; `0/0` and `inf/inf` are NaN. -/
def div (a b : F32) : F32 :=
  match a, b with
  | .nan, _ => .nan
  | _, .nan => .nan
  | .inf _, .inf _ => .nan
  | .inf s, .fin t _ _ => .inf (xor s t)
  | .fin s _ _, .inf t => .fin (xor s t) 0 (-149)
  | .fin n1 m1 e1, .fin n2 m2 e2 =>
    if m2 = 0 then (if m1 = 0 then .nan else .inf (xor n1 n2))
    else
      let k := bitLen m2 + 26
      let q := (m1 * 2 ^ k) / m2
      let r := (m1 * 2 ^ k) % m2
      round (xor n1 n2) (2 * q + (if r = 0 then 0 else 1)) (e1 - e2 - (k : Int) - 1)

/-- Binary32 square root, correctly rounded; NaN below zero. -/
def sqrt : F32 → F32
  | .nan => .nan
  | .inf s => if s then .nan else .inf false
  | .fin s m e =>
    if m = 0 then .fin s 0 (-149)
    else if s then .nan
    else
      let k : Nat := if e % 2 = 0 then 64 else 65
      let r := isqrt (m * 2 ^ k)
      round false (2 * r + (if r * r = m * 2 ^ k then 0 else 1)) ((e - (k : Int)) / 2 - 1)

/-- The comparison `a <= b`; false when either side is NaN. -/
def le (a b : F32) : Bool :=
  match a, b with
  | .nan, _ => false
  | _, .nan => false
  | .inf true, _ => true
  | _, .inf false => true
  | .inf false, _ => false
  | _, .inf true => false
  | .fin n1 m1 e1, .fin n2 m2 e2 =>
    decide (signedAt (min e1 e2) n1 m1 e1 ≤ signedAt (min e1 e2) n2 m2 e2)

/-- The comparison `a >= b`. -/
def ge (a b : F32) : Bool := le b a

/-- The comparison `a < b`. -/
def lt (a b : F32) : Bool := le a b && !(le b a)

/-- OpenCL `max(x, y)`: `y` if `x < y`, otherwise `x`. -/
def max (x y : F32) : F32 := if lt x y then y else x

/-- OpenCL `min(x, y)`: `y` if `y < x`, otherwise `x`. -/
def min (x y : F32) : F32 := if lt y x then y else x

/-- Conversion `convert_uchar` of one lane: truncation toward zero.  A value
outside `0..255` is implementation-defined in OpenCL; here it wraps modulo 256
and NaN and the infinities give 0. -/
def toUChar : F32 → Nat
  | .nan => 0
  | .inf _ => 0
  | .fin s m e =>
    let t : Nat := if 0 ≤ e then m * 2 ^ e.toNat else m / 2 ^ (-e).toNat
    if s then (256 - t % 256) % 256 else t % 256

/-- The rational number a finite value stands for (`none` for NaN and the
infinities). -/
def toRat : F32 → Option ℚ
  | .nan => none
  | .inf _ => none
  | .fin s m e => some ((if s then -1 else 1) * (m : ℚ) * (2 : ℚ) ^ e)

end F32

/-! ## Machine integers -/

/-- Conversion to `int`: the low 32 bits, read as two's complement. -/
def toInt32 (n : Int) : Int := (n + 2 ^ 31) % 2 ^ 32 - 2 ^ 31

/-- Result of a signed `int` operation: undefined (`none`) on overflow. -/
def checkedInt32 (v : Int) : Option Int :=
  if -(2 ^ 31) ≤ v ∧ v < 2 ^ 31 then some v else none

/-- Conversion to `size_t`: the low 64 bits. -/
def toSizeT (n : Int) : Nat := (n % 2 ^ 64).toNat

/-! ## The kernel `Julia` -/

/-- The literal `0.0f`. -/
def f0 : F32 := .fin false 0 (-149)

/-- The literal `1.0f`. -/
def f1 : F32 := .fin false 8388608 (-23)

/-- The literal `64.0f`. -/
def f64 : F32 := .fin false 8388608 (-17)

/-- The literal `255.0f`. -/
def f255 : F32 := .fin false 16711680 (-16)

/-- The constant `cMinX = -1.5f`. -/
def cMinX : F32 := .fin true 12582912 (-23)

/-- The constant `cMaxX = 1.5f`. -/
def cMaxX : F32 := .fin false 12582912 (-23)

/-- The constant `cMinY = -1.5f`. -/
def cMinY : F32 := .fin true 12582912 (-23)

/-- The constant `cMaxY = 1.5f`. -/
def cMaxY : F32 := .fin false 12582912 (-23)

/-- The constant `cIterations`. -/
def cIterations : Nat := 16

/-- The constant `thresholdSquared = cIterations * cIterations / 64.0f`: the
product is an `int`, converted for the division. -/
def thresholdSquared : F32 :=
  F32.div (F32.ofInt ((cIterations : Int) * (cIterations : Int))) f64

/-- The step `1.0f / cIterations` added to `result`. -/
def resultStep : F32 := F32.div f1 (F32.ofInt (cIterations : Int))

/-- The plane coordinate `p * ( cMax - cMin ) / cWidth + cMin` of lines 58-59,
for `p` one of the `int`s `x`, `y` and `cMin`, `cMax` the bounds of that axis. -/
def planeCoord (cWidth p : Int) (cMin cMax : F32) : F32 :=
  F32.add (F32.div (F32.mul (F32.ofInt p) (F32.sub cMax cMin)) (F32.ofInt cWidth)) cMin

/-- The variables the loop of lines 64-76 changes. -/
structure LoopState where
  a : F32
  b : F32
  result : F32
deriving DecidableEq

/-- The test `magnitudeSquared >= thresholdSquared` of line 69. -/
def escaped (a b : F32) : Bool :=
  F32.ge (F32.add (F32.mul a a) (F32.mul b b)) thresholdSquared

/-- The loop of lines 64-76; the first argument is the number of iterations
still to run, `cIterations - i`.  The new `b` is computed before `a` is
overwritten, and `a` from the saved squares `aa` and `bb`. -/
def juliaLoop (cr ci : F32) : Nat → LoopState → LoopState
  | 0, s => s
  | n + 1, s =>
    if escaped s.a s.b then s
    else
      juliaLoop cr ci n
        { result := F32.add s.result resultStep
          b := F32.add (F32.mul (F32.mul (F32.ofInt 2) s.a) s.b) ci
          a := F32.add (F32.sub (F32.mul s.a s.a) (F32.mul s.b s.b)) cr }

/-- The value of `result` when the loop is left (line 77), from the start
point `(a, b)`. -/
def escapeFraction (cr ci a b : F32) : F32 :=
  (juliaLoop cr ci cIterations { a := a, b := b, result := f0 }).result

/-- The clamp of lines 78-79. -/
def clamp01 (result : F32) : F32 := F32.min (F32.max result f0) f1

/-- A `uchar4`: four bytes, `x` first in memory. -/
structure UChar4 where
  x : Nat
  y : Nat
  z : Nat
  w : Nat
deriving DecidableEq

/-- The stored cell of lines 82-84,
`convert_uchar4((float4)(1.0f, sqrt(result), result, 1.0f) * 255.0f)`. -/
def colorOf (result : F32) : UChar4 :=
  { x := F32.toUChar (F32.mul f1 f255)
    y := F32.toUChar (F32.mul (F32.sqrt result) f255)
    z := F32.toUChar (F32.mul result f255)
    w := F32.toUChar (F32.mul f1 f255) }

/-- The clamped `result` of the work-item with global id `(gid0, gid1)` in a
range whose first dimension is `gsize0`. -/
def juliaResult (gsize0 gid0 gid1 : Nat) (cr ci : F32) : F32 :=
  clamp01 (escapeFraction cr ci
    (planeCoord (toInt32 gsize0) (toInt32 gid0) cMinX cMaxX)
    (planeCoord (toInt32 gsize0) (toInt32 gid1) cMinY cMaxY))

/-- The index expression `y * cWidth + x` of line 84, undefined when the
`int` arithmetic overflows. -/
def cellIndex (gsize0 gid0 gid1 : Nat) : Option Int :=
  (checkedInt32 (toInt32 gid1 * toInt32 gsize0)).bind
    (fun yw => checkedInt32 (yw + toInt32 gid0))

/-- One work-item of the kernel `Julia`: the index it stores to and the cell
it stores there. -/
def Julia (gsize0 gid0 gid1 : Nat) (cr ci : F32) : Option (Int × UChar4) :=
  (cellIndex gsize0 gid0 gid1).map
    (fun i => (i, colorOf (juliaResult gsize0 gid0 gid1 cr ci)))

/-! ## The device: one dispatch over the grid -/

/-- The store `dst[ index ] = cell` of one work-item into a buffer of
`buf.length` cells: undefined when the index expression overflowed or the
index lies outside the buffer. -/
def writeCell (buf : List UChar4) (st : Option (Int × UChar4)) : Option (List UChar4) :=
  match st with
  | none => none
  | some (i, c) => if 0 ≤ i ∧ i.toNat < buf.length then some (buf.set i.toNat c) else none

/-- The global ids of a two-dimensional range `(gwx, gwy)` with no offset,
row by row. -/
def workItems (gwx gwy : Nat) : List (Nat × Nat) :=
  (List.range gwy).flatMap (fun y => (List.range gwx).map (fun x => (x, y)))

/-- The work-items `items` of a range whose first dimension is `gsize0`, run
one after the other on the buffer. -/
def runItems (gsize0 : Nat) (cr ci : F32) : List (Nat × Nat) → List UChar4 → Option (List UChar4)
  | [], buf => some buf
  | (x, y) :: rest, buf =>
    (writeCell buf (Julia gsize0 x y cr ci)).bind (runItems gsize0 cr ci rest)

/-- One dispatch of `Julia` over the range `(gwx, gwy)`: the buffer it leaves,
or `none` when a work-item's store is undefined. -/
def runKernel (gwx gwy : Nat) (cr ci : F32) (buf : List UChar4) : Option (List UChar4) :=
  runItems gwx cr ci (workItems gwx gwy) buf

/-- The buffer after `n` dispatches in a row. -/
def dispatchTimes (gwx gwy : Nat) (cr ci : F32) : Nat → List UChar4 → Option (List UChar4)
  | 0, buf => some buf
  | n + 1, buf => (runKernel gwx gwy cr ci buf).bind (dispatchTimes gwx gwy cr ci n)

/-! ## The host program -/

/-- The global `cr = -0.123f`: the binary32 nearest to `-123/1000`. -/
def cr : F32 := F32.neg (F32.div (F32.ofInt 123) (F32.ofInt 1000))

/-- The global `ci = 0.745f`: the binary32 nearest to `745/1000`. -/
def ci : F32 := F32.div (F32.ofInt 745) (F32.ofInt 1000)

/-- The global `filename`. -/
def filename : String := "julia.bmp"

/-- The largest `int`. -/
def INT_MAX : Nat := 2 ^ 31 - 1

/-- The calls the program makes that the outside can see, in the order made
(`printf` to standard output is not recorded). -/
inductive Event where
  | usage : Event
  | selectPlatform (index : Int) : Event
  | selectDevice (index : Int) : Event
  | createContext : Event
  | createQueue : Event
  | buildProgram : Event
  | createKernel : Event
  | createBuffer (bytes : Nat) : Event
  | setArg (index : Nat) : Event
  | finish : Event
  | enqueueNDRangeKernel (offset : Option (Nat × Nat)) (global : Nat × Nat)
      (lws : Option (Nat × Nat)) : Event
  | enqueueMapBuffer (blocking : Bool) (offset : Nat) (bytes : Nat) : Event
  | save_image (pixels : List UChar4) (width height : Nat) (file : String) : Event
  | enqueueUnmapMemObject : Event
deriving DecidableEq

/-- The command-queue operations among the events. -/
def Event.isQueueOp : Event → Bool
  | .finish => true
  | .enqueueNDRangeKernel _ _ _ => true
  | .enqueueMapBuffer _ _ _ => true
  | .enqueueUnmapMemObject => true
  | _ => false

/-- The kernel dispatches among the events. -/
def Event.isDispatch : Event → Bool
  | .enqueueNDRangeKernel _ _ _ => true
  | _ => false

/-- The globals set from the command line, with the locals `printUsage`,
`platformIndex` and `deviceIndex` of `main`. -/
structure Options where
  printUsage : Bool
  platformIndex : Int
  deviceIndex : Int
  iterations : Nat
  gwx : Nat
  gwy : Nat
  lwx : Nat
  lwy : Nat
deriving DecidableEq

/-- The initial values of lines 31-35 and 157-159. -/
def defaults : Options :=
  { printUsage := false, platformIndex := 0, deviceIndex := 0,
    iterations := 16, gwx := 512, gwy := 512, lwx := 0, lwy := 0 }

/-- The characters `isspace` accepts in the C locale. -/
def isSpace (c : Char) : Bool :=
  c.toNat = 32 ∨ (9 ≤ c.toNat ∧ c.toNat ≤ 13)

/-- The value of the leading decimal digits of `cs`, after `acc`. -/
def digitsValue : List Char → Nat → Nat
  | [], acc => acc
  | c :: cs, acc =>
    if 48 ≤ c.toNat ∧ c.toNat ≤ 57 then digitsValue cs (acc * 10 + (c.toNat - 48)) else acc

/-- C `strtol(s, NULL, 10)` with a 64-bit `long`: leading white space, an
optional sign, the decimal digits that follow (none gives 0), the result
clamped to `LONG_MIN..LONG_MAX`. -/
def strtol (s : String) : Int :=
  match s.toList.dropWhile isSpace with
  | '-' :: cs => max (-(digitsValue cs 0 : Int)) (-(2 ^ 63))
  | '+' :: cs => min (digitsValue cs 0 : Int) (2 ^ 63 - 1)
  | cs => min (digitsValue cs 0 : Int) (2 ^ 63 - 1)

/-- The flag loop of lines 167-229 over the tokens `argv[i], argv[i+1], ...`
not yet read.  A flag takes the next token as its value when there is one
(`++i < argc`); with none left nothing is assigned and the loop ends.  The
second `-p` branch of lines 183-189 is kept as written. -/
def parseArgs : List String → Options → Options
  | [], o => o
  | t :: rest, o =>
    if t = "-d" then
      match rest with
      | v :: more => parseArgs more { o with deviceIndex := toInt32 (strtol v) }
      | [] => o
    else if t = "-p" then
      match rest with
      | v :: more => parseArgs more { o with platformIndex := toInt32 (strtol v) }
      | [] => o
    else if t = "-p" then
      match rest with
      | v :: more => parseArgs more { o with platformIndex := toInt32 (strtol v) }
      | [] => o
    else if t = "-i" then
      match rest with
      | v :: more => parseArgs more { o with iterations := toSizeT (strtol v) }
      | [] => o
    else if t = "-gwx" then
      match rest with
      | v :: more => parseArgs more { o with gwx := toSizeT (strtol v) }
      | [] => o
    else if t = "-gwy" then
      match rest with
      | v :: more => parseArgs more { o with gwy := toSizeT (strtol v) }
      | [] => o
    else if t = "-lwx" then
      match rest with
      | v :: more => parseArgs more { o with lwx := toSizeT (strtol v) }
      | [] => o
    else if t = "-lwy" then
      match rest with
      | v :: more => parseArgs more { o with lwy := toSizeT (strtol v) }
      | [] => o
    else parseArgs rest { o with printUsage := true }

/-- Lines 157-230 of `main`: `argc < 1` asks for the usage text, otherwise the
flag loop runs from `argv[1]`. -/
def parseCommandLine (argv : List String) : Options :=
  match argv with
  | [] => { defaults with printUsage := true }
  | _ :: args => parseArgs args defaults

/-- The events so far and the contents of `deviceMemDst`. -/
structure Host where
  events : List Event
  buffer : List UChar4
deriving DecidableEq

/-- The size in bytes `gwx * gwy * sizeof( cl_uchar4 )`, a `size_t`. -/
def bufferBytes (gwx gwy : Nat) : Nat := (gwx * gwy * 4) % 2 ^ 64

/-- The call `commandQueue.enqueueNDRangeKernel(kernel, cl::NullRange,
cl::NDRange{gwx, gwy}, lws)` of lines 120-124, with its effect on the buffer. -/
def enqueueNDRangeKernel (o : Options) (lws : Option (Nat × Nat)) (h : Host) : Option Host :=
  (runKernel o.gwx o.gwy cr ci h.buffer).map
    (fun b => { events := h.events ++ [Event.enqueueNDRangeKernel none (o.gwx, o.gwy) lws],
                buffer := b })

/-- The loop `for( int i = 0; i < iterations; i++ )` of lines 118-125; the
first argument is the number of passes left, `iterations - i`.  The counter is
an `int`: incrementing it past `INT_MAX` is undefined. -/
def goLoop (o : Options) (lws : Option (Nat × Nat)) : Nat → Nat → Host → Option Host
  | 0, _, h => some h
  | left + 1, i, h =>
    (enqueueNDRangeKernel o lws h).bind
      (fun h1 => if i + 1 ≤ INT_MAX then goLoop o lws left (i + 1) h1 else none)

/-- The function `init` of lines 88-91, which does nothing. -/
def init (h : Host) : Host := h

/-- The local work size chosen in lines 99-111. -/
def localWorkSize (o : Options) : Option (Nat × Nat) :=
  if 0 < o.lwx ∧ 0 < o.lwy then some (o.lwx, o.lwy) else none

/-- The function `go` of lines 93-133. -/
def go (o : Options) (h : Host) : Option Host :=
  (goLoop o (localWorkSize o) o.iterations 0
      { h with events := h.events ++
          [Event.setArg 0, Event.setArg 1, Event.setArg 2, Event.finish] }).map
    (fun h1 => { h1 with events := h1.events ++ [Event.finish] })

/-- The function `checkResults` of lines 135-151. -/
def checkResults (o : Options) (h : Host) : Host :=
  { h with events := h.events ++
      [Event.enqueueMapBuffer true 0 (bufferBytes o.gwx o.gwy),
       Event.save_image h.buffer o.gwx o.gwy filename,
       Event.enqueueUnmapMemObject] }

/-- What the program finds when it runs: the number of devices of each
platform, and the contents a freshly allocated buffer happens to have. -/
structure Env where
  platforms : List Nat
  fresh : Nat → UChar4

/-- The buffer `deviceMemDst` as allocated in lines 276-279. -/
def allocate (env : Env) (o : Options) : List UChar4 :=
  (List.range (bufferBytes o.gwx o.gwy / 4)).map env.fresh

/-- A finished run: the value `main` returns, the events, and the buffer's
final contents (`none` when none was allocated). -/
structure Run where
  status : Int
  events : List Event
  buffer : Option (List UChar4)
deriving DecidableEq

/-- Lines 248-285 of `main`, for the options `o`.  Indexing `platforms` or
`devices` out of range is undefined; the OpenCL calls are taken to succeed. -/
def runSample (env : Env) (o : Options) : Option Run :=
  if 0 ≤ o.platformIndex ∧ o.platformIndex.toNat < env.platforms.length then
    if 0 ≤ o.deviceIndex ∧ o.deviceIndex.toNat < env.platforms.getD o.platformIndex.toNat 0 then
      (go o
        (init
          { events :=
              [Event.selectPlatform o.platformIndex, Event.selectDevice o.deviceIndex,
               Event.createContext, Event.createQueue, Event.buildProgram, Event.createKernel,
               Event.createBuffer (bufferBytes o.gwx o.gwy)]
            buffer := allocate env o })).map
        (fun h =>
          { status := 0, events := (checkResults o h).events,
            buffer := some (checkResults o h).buffer })
    else none
  else none

/-- The function `main`. -/
def main (env : Env) (argv : List String) : Option Run :=
  if (parseCommandLine argv).printUsage then
    some { status := -1, events := [Event.usage], buffer := none }
  else runSample env (parseCommandLine argv)

/-! ## Definitions used to state the properties -/

/-- The value of `result` after `k` additions of `1.0f / cIterations`. -/
def sixteenths (k : Nat) : F32 := (fun r => F32.add r resultStep)^[k] f0

/-- The literal `4.0f`. -/
def f4 : F32 := .fin false 8388608 (-21)

/-- One step of the orbit as the specification writes it:
`a' = a² − b² + cr`, `b' = 2ab + ci`, both from the old `a` and `b`. -/
def orbitStep (cr ci : F32) (p : F32 × F32) : F32 × F32 :=
  (F32.add (F32.sub (F32.mul p.1 p.1) (F32.mul p.2 p.2)) cr,
   F32.add (F32.mul (F32.mul (F32.ofInt 2) p.1) p.2) ci)

/-- The `i`-th orbit point `(a_i, b_i)` from the start point `(a0, b0)`. -/
def orbit (cr ci a0 b0 : F32) (i : Nat) : F32 × F32 := (orbitStep cr ci)^[i] (a0, b0)

/-- The specification's test `a² + b² >= 4` on an orbit point. -/
def reachesThreshold (p : F32 × F32) : Bool :=
  F32.ge (F32.add (F32.mul p.1 p.1) (F32.mul p.2 p.2)) f4

/-- Neither NaN nor a zero. -/
def F32.isNonzero : F32 → Bool
  | .nan => false
  | .inf _ => true
  | .fin _ m _ => decide (m ≠ 0)

/-- The tokens the flag loop compares with a flag name. -/
def isFlag (t : String) : Bool :=
  t = "-d" ∨ t = "-p" ∨ t = "-i" ∨ t = "-gwx" ∨ t = "-gwy" ∨ t = "-lwx" ∨ t = "-lwy"

/-- The assignment the flag loop makes for the flag `t` with the value token
`v` (nothing for a token that is not a flag). -/
def assign (t v : String) (o : Options) : Options :=
  if t = "-d" then { o with deviceIndex := toInt32 (strtol v) }
  else if t = "-p" then { o with platformIndex := toInt32 (strtol v) }
  else if t = "-i" then { o with iterations := toSizeT (strtol v) }
  else if t = "-gwx" then { o with gwx := toSizeT (strtol v) }
  else if t = "-gwy" then { o with gwy := toSizeT (strtol v) }
  else if t = "-lwx" then { o with lwx := toSizeT (strtol v) }
  else if t = "-lwy" then { o with lwy := toSizeT (strtol v) }
  else o

/-- The tokens of `args` the flag loop reads in flag position: a recognised
flag hides the token after it, which is its value. -/
def flagPositions : List String → List String
  | [] => []
  | [t] => [t]
  | t :: v :: rest =>
    if isFlag t then t :: flagPositions rest else t :: flagPositions (v :: rest)

/-- The flag loop ends on a recognised flag that has no value token after it. -/
def endsOnFlag : List String → Bool
  | [] => false
  | [t] => isFlag t
  | t :: v :: rest => if isFlag t then endsOnFlag rest else endsOnFlag (v :: rest)

/-- A machine with one platform of one device, whose fresh buffers are zero. -/
def sampleEnv : Env := { platforms := [1], fresh := fun _ => { x := 0, y := 0, z := 0, w := 0 } }



/-! ## Facts about the arithmetic -/

theorem thresholdSquared_eq : thresholdSquared = f4 := by decide

theorem sixteenths_table : ∀ k, k ≤ 16 → sixteenths k =
    ([f0, .fin false 8388608 (-27), .fin false 8388608 (-26), .fin false 12582912 (-26),
      .fin false 8388608 (-25), .fin false 10485760 (-25), .fin false 12582912 (-25),
      .fin false 14680064 (-25), .fin false 8388608 (-24), .fin false 9437184 (-24),
      .fin false 10485760 (-24), .fin false 11534336 (-24), .fin false 12582912 (-24),
      .fin false 13631488 (-24), .fin false 14680064 (-24), .fin false 15728640 (-24),
      .fin false 8388608 (-23)] : List F32).getD k f0 := by
  decide

theorem toRat_sixteenths (k : Nat) (hk : k ≤ 16) :
    F32.toRat (sixteenths k) = some ((k : ℚ) / 16) := by
  rw [sixteenths_table k hk]
  interval_cases k <;> simp [F32.toRat, f0] <;> norm_num

theorem color_sixteenths : ∀ k, k ≤ 16 →
    clamp01 (sixteenths k) = sixteenths k ∧
    colorOf (sixteenths k) =
      { x := 255, y := isqrt (65025 * k / 16), z := 255 * k / 16, w := 255 } := by
  decide

theorem sixteenths_succ (k : Nat) : sixteenths (k + 1) = F32.add (sixteenths k) resultStep := by
  simp [sixteenths, Function.iterate_succ_apply']

theorem orbit_succ (cr ci a0 b0 : F32) (i : Nat) :
    orbit cr ci a0 b0 (i + 1) =
      orbit cr ci (orbitStep cr ci (a0, b0)).1 (orbitStep cr ci (a0, b0)).2 i := by
  simp [orbit, Function.iterate_succ_apply]

theorem escaped_eq (a b : F32) : escaped a b = reachesThreshold (a, b) := by
  simp [escaped, reachesThreshold, thresholdSquared_eq]

/-- The loop leaves `result` at `j + k` sixteenths, `k` being the first index
at which the orbit from the current point passes the test, or the number of
passes left. -/
theorem juliaLoop_result (cr ci : F32) (n : Nat) :
    ∀ (s : LoopState) (j : Nat), s.result = sixteenths j →
      ∃ k, k ≤ n ∧ (juliaLoop cr ci n s).result = sixteenths (j + k) ∧
        (∀ i, i < k → reachesThreshold (orbit cr ci s.a s.b i) = false) ∧
        (k < n → reachesThreshold (orbit cr ci s.a s.b k) = true) := by
  induction n with
  | zero =>
    intro s j hs
    exact ⟨0, le_refl 0, by simpa [juliaLoop] using hs, by intro i hi; omega, by intro h; omega⟩
  | succ n ih =>
    intro s j hs
    by_cases he : escaped s.a s.b = true
    · refine ⟨0, Nat.zero_le _, ?_, by intro i hi; omega, ?_⟩
      · simpa [juliaLoop, he] using hs
      · intro _
        simpa [orbit, escaped_eq] using he
    · have hs1 : (F32.add s.result resultStep) = sixteenths (j + 1) := by
        rw [sixteenths_succ, hs]
      obtain ⟨k, hk, hres, hlt, hat⟩ := ih
        { result := F32.add s.result resultStep
          b := F32.add (F32.mul (F32.mul (F32.ofInt 2) s.a) s.b) ci
          a := F32.add (F32.sub (F32.mul s.a s.a) (F32.mul s.b s.b)) cr } (j + 1) hs1
      refine ⟨k + 1, by omega, ?_, ?_, ?_⟩
      · simp only [juliaLoop, he]
        simpa [Nat.add_assoc, Nat.add_comm 1 k] using hres
      · intro i hi
        cases i with
        | zero =>
          simpa [orbit, escaped_eq] using he
        | succ i =>
          rw [orbit_succ]
          exact hlt i (by omega)
      · intro hkn
        rw [orbit_succ]
        exact hat (by omega)

theorem escapeFraction_sixteenths (cr ci a0 b0 : F32) :
    ∃ k, k ≤ 16 ∧ escapeFraction cr ci a0 b0 = sixteenths k ∧
      (∀ i, i < k → reachesThreshold (orbit cr ci a0 b0 i) = false) ∧
      (k < 16 → reachesThreshold (orbit cr ci a0 b0 k) = true) := by
  obtain ⟨k, hk, hres, hlt, hat⟩ :=
    juliaLoop_result cr ci cIterations { a := a0, b := b0, result := f0 } 0 (by simp [sixteenths])
  exact ⟨k, hk, by simpa [escapeFraction] using hres, hlt, hat⟩


theorem isqrt_table : ∀ k, k ≤ 16 →
    16 * (isqrt (65025 * k / 16) * isqrt (65025 * k / 16)) ≤ 65025 * k ∧
    65025 * k < 16 * ((isqrt (65025 * k / 16) + 1) * (isqrt (65025 * k / 16) + 1)) := by
  decide

/-- For `result = k/16` the real number `255 * sqrt(result)` has the integer
part the bitwise square root computes. -/
theorem floor_sqrt_sixteenth (k : Nat) (hk : k ≤ 16) :
    ⌊(255 : ℝ) * Real.sqrt (((k : ℚ) / 16 : ℚ) : ℝ)⌋₊ = isqrt (65025 * k / 16) := by
  obtain ⟨h1, h2⟩ := isqrt_table k hk
  generalize isqrt (65025 * k / 16) = c at h1 h2
  have hsq : (255 : ℝ) * Real.sqrt (((k : ℚ) / 16 : ℚ) : ℝ) =
      Real.sqrt (65025 * (k : ℝ) / 16) := by
    have h255 : (255 : ℝ) = Real.sqrt (255 ^ 2) := by
      rw [Real.sqrt_sq (by norm_num)]
    rw [show (65025 : ℝ) * (k : ℝ) / 16 = 255 ^ 2 * ((k : ℝ) / 16) by ring,
      Real.sqrt_mul (by positivity), ← h255]
    push_cast
    rfl
  have c1 : (16 : ℝ) * ((c : ℝ) * c) ≤ 65025 * k := by exact_mod_cast h1
  have c2 : (65025 : ℝ) * k < 16 * (((c : ℝ) + 1) * (c + 1)) := by exact_mod_cast h2
  rw [hsq, Nat.floor_eq_iff (Real.sqrt_nonneg _)]
  constructor
  · apply Real.le_sqrt_of_sq_le
    nlinarith
  · rw [Real.sqrt_lt' (by positivity)]
    nlinarith

theorem floor_mul_sixteenth (k : Nat) :
    ⌊(255 : ℚ) * ((k : ℚ) / 16)⌋₊ = 255 * k / 16 := by
  rw [show (255 : ℚ) * ((k : ℚ) / 16) = ((255 * k : ℕ) : ℚ) / ((16 : ℕ) : ℚ) by push_cast; ring]
  exact Nat.floor_div_eq_div _ _

/-! ### The significand of a rounded non-zero number is not zero -/

theorem bitLenAux_pos (fuel n : Nat) (h : n ≤ fuel) (hn : n ≠ 0) : 0 < bitLenAux fuel n := by
  cases fuel with
  | zero => omega
  | succ f => simp [bitLenAux, hn]

theorem two_pow_bitLenAux_le (fuel : Nat) :
    ∀ n, n ≤ fuel → n ≠ 0 → 2 ^ (bitLenAux fuel n - 1) ≤ n := by
  induction fuel with
  | zero => intro n h hn; omega
  | succ f ih =>
    intro n h hn
    simp only [bitLenAux, hn, if_false, Nat.add_sub_cancel]
    by_cases h2 : n / 2 = 0
    · have : bitLenAux f (n / 2) = 0 := by
        rw [h2]; cases f <;> simp [bitLenAux]
      rw [this]; simp; omega
    · have hle : n / 2 ≤ f := by omega
      have hp := bitLenAux_pos f (n / 2) hle h2
      have := ih (n / 2) hle h2
      have e : 2 ^ bitLenAux f (n / 2) = 2 * 2 ^ (bitLenAux f (n / 2) - 1) := by
        rw [← pow_succ']; congr 1; omega
      omega

theorem two_pow_bitLen_le (n : Nat) (hn : n ≠ 0) : 2 ^ (bitLen n - 1) ≤ n :=
  two_pow_bitLenAux_le n n (le_refl n) hn

theorem pack_nonzero (s : Bool) (q : Nat) (e : Int) (hq : q ≠ 0) :
    (F32.pack s q e).isNonzero = true := by
  unfold F32.pack
  split_ifs <;> simp [F32.isNonzero, hq]

theorem round_nonzero (s : Bool) (m : Nat) (e : Int) (hm : m ≠ 0) (he : -149 ≤ e) :
    (F32.round s m e).isNonzero = true := by
  unfold F32.round
  simp only [hm, if_false]
  split_ifs with h1 h2
  · apply pack_nonzero
    positivity
  · apply pack_nonzero
    exact Nat.succ_ne_zero _
  · apply pack_nonzero
    -- here `t = e + bitLen m - 24 > e`, so the shift is `bitLen m - 24`
    have hb := two_pow_bitLen_le m hm
    have ht : max (e + (bitLen m : Int) - 24) (-149) = e + (bitLen m : Int) - 24 := by
      rcases max_cases (e + (bitLen m : Int) - 24) (-149) with ⟨h, _⟩ | ⟨h, _⟩
      · exact h
      · omega
    rw [ht]
    have hs : (e + (bitLen m : Int) - 24 - e).toNat = bitLen m - 24 := by omega
    rw [hs]
    have : 2 ^ (bitLen m - 24) ≤ m :=
      le_trans (Nat.pow_le_pow_right (by norm_num) (by omega)) hb
    have := Nat.div_pos this (by positivity)
    omega

theorem ofInt_nonzero (c : Int) (hc : c ≠ 0) : (F32.ofInt c).isNonzero = true :=
  round_nonzero _ _ _ (by omega) (by norm_num)

theorem zero_div_add_cMin (b : F32) (hb : b.isNonzero = true) :
    F32.add (F32.div f0 b) cMinX = cMinX := by
  cases b with
  | nan => simp [F32.isNonzero] at hb
  | inf t => cases t <;> decide
  | fin t m e =>
    have hm : m ≠ 0 := by simpa [F32.isNonzero] using hb
    have : F32.div f0 (.fin t m e) = .fin t 0 (-149) := by
      simp [F32.div, f0, hm, F32.round]
    rw [this]
    cases t <;> decide

theorem planeCoord_zero (c : Int) (hc : c ≠ 0) :
    planeCoord c 0 cMinX cMaxX = cMinX ∧ planeCoord c 0 cMinY cMaxY = cMinY := by
  have h0 : F32.mul (F32.ofInt 0) (F32.sub cMaxX cMinX) = f0 := by decide
  have h : planeCoord c 0 cMinX cMaxX = cMinX := by
    rw [planeCoord, h0]
    exact zero_div_add_cMin _ (ofInt_nonzero c hc)
  exact ⟨h, h⟩


theorem toInt32_zero : toInt32 0 = 0 := by decide

theorem toInt32_ne_zero (n : Nat) (h : n % 2 ^ 32 ≠ 0) : toInt32 (n : Int) ≠ 0 := by
  unfold toInt32
  omega

theorem escapeFraction_cMin (cr ci : F32) : escapeFraction cr ci cMinX cMinY = f0 := by
  have h : escaped cMinX cMinY = true := by decide
  simp [escapeFraction, cIterations, juliaLoop, h]

/-! ## The claims about the kernel -/

/-- C1. For every grid and every pixel of it, the clamped escape fraction
`result` is a rational number in [0, 1], and the cell the work-item stores has
byte 0 (blue) 255, byte 1 (green) `floor(255 * sqrt(result))`, byte 2 (red)
`floor(255 * result)` and byte 3 (alpha) 255. -/
theorem julia_result_range_and_color (width height : Nat) (cr ci : F32) (x y : Nat)
    (hw : 0 < width) (hh : 0 < height) (hx : x < width) (hy : y < height) :
    ∃ r : ℚ, F32.toRat (juliaResult width x y cr ci) = some r ∧ 0 ≤ r ∧ r ≤ 1 ∧
      colorOf (juliaResult width x y cr ci) =
        { x := 255, y := ⌊(255 : ℝ) * Real.sqrt (r : ℝ)⌋₊, z := ⌊(255 : ℚ) * r⌋₊, w := 255 } ∧
      ∀ i c, Julia width x y cr ci = some (i, c) →
        c = { x := 255, y := ⌊(255 : ℝ) * Real.sqrt (r : ℝ)⌋₊, z := ⌊(255 : ℚ) * r⌋₊,
              w := 255 } := by
  obtain ⟨k, hk, hres, -, -⟩ := escapeFraction_sixteenths cr ci
    (planeCoord (toInt32 width) (toInt32 x) cMinX cMaxX)
    (planeCoord (toInt32 width) (toInt32 y) cMinY cMaxY)
  obtain ⟨hclamp, hcolor⟩ := color_sixteenths k hk
  have hr : juliaResult width x y cr ci = sixteenths k := by
    rw [juliaResult, hres, hclamp]
  have hc : colorOf (juliaResult width x y cr ci) =
      { x := 255, y := ⌊(255 : ℝ) * Real.sqrt (((k : ℚ) / 16 : ℚ) : ℝ)⌋₊,
        z := ⌊(255 : ℚ) * ((k : ℚ) / 16)⌋₊, w := 255 } := by
    rw [hr, hcolor, floor_sqrt_sixteenth k hk, floor_mul_sixteenth k]
  refine ⟨(k : ℚ) / 16, ?_, by positivity, ?_, hc, ?_⟩
  · rw [hr, toRat_sixteenths k hk]
  · have : (k : ℚ) ≤ 16 := by exact_mod_cast hk
    linarith
  · intro i c h
    simp only [Julia, Option.map_eq_some', Prod.mk.injEq] at h
    obtain ⟨_, _, _, h2⟩ := h
    rw [← h2, hc]

/-- C1, at pixel (1, 1) of a 2 x 2 grid with the default parameter. -/
theorem julia_result_range_and_color_witness :
    ∃ r : ℚ, F32.toRat (juliaResult 2 1 1 cr ci) = some r ∧ 0 ≤ r ∧ r ≤ 1 ∧
      colorOf (juliaResult 2 1 1 cr ci) =
        { x := 255, y := ⌊(255 : ℝ) * Real.sqrt (r : ℝ)⌋₊, z := ⌊(255 : ℚ) * r⌋₊, w := 255 } ∧
      ∀ i c, Julia 2 1 1 cr ci = some (i, c) →
        c = { x := 255, y := ⌊(255 : ℝ) * Real.sqrt (r : ℝ)⌋₊, z := ⌊(255 : ℚ) * r⌋₊,
              w := 255 } :=
  julia_result_range_and_color 2 2 cr ci 1 1 (by decide) (by decide) (by decide) (by decide)

/-- C2. From every start point and for every parameter, the escape fraction
the loop computes is `k/16`, `k` being the least index in 0..15 whose orbit
point passes the test `a² + b² >= 4` (4 is the threshold `16*16/64`), or 16
when no index does; the orbit is that of the simultaneous update `orbitStep`,
and the test in the loop is the test on the orbit point. -/
theorem escapeFraction_first_escape (cr ci a0 b0 : F32) :
    F32.toRat thresholdSquared = some 4 ∧
    (∀ i, orbit cr ci a0 b0 (i + 1) = orbitStep cr ci (orbit cr ci a0 b0 i)) ∧
    ∃ k : Nat, k ≤ 16 ∧
      F32.toRat (escapeFraction cr ci a0 b0) = some ((k : ℚ) / 16) ∧
      (∀ i, i < k → reachesThreshold (orbit cr ci a0 b0 i) = false) ∧
      (k < 16 → reachesThreshold (orbit cr ci a0 b0 k) = true) := by
  refine ⟨?_, ?_, ?_⟩
  · rw [thresholdSquared_eq]
    simp [f4, F32.toRat]
    norm_num
  · intro i
    simp [orbit, Function.iterate_succ_apply']
  · obtain ⟨k, hk, hres, hlt, hat⟩ := escapeFraction_sixteenths cr ci a0 b0
    exact ⟨k, hk, by rw [hres, toRat_sixteenths k hk], hlt, hat⟩

/-- C8, as amended. For every grid whose width is not a multiple of 2^32 (so
that the kernel's `int cWidth` is not zero), every height and every parameter,
pixel (0, 0) is mapped to a = b = -1.5; the squared magnitude 4.5 is at least
the threshold 4, the loop breaks at index 0 with escape fraction 0, and the
cell stored at index 0 is pure blue, (255, 0, 0, 255). -/
theorem origin_pixel_is_blue (width height : Nat) (cr ci : F32)
    (hw : 0 < width) (hh : 0 < height) (hmod : width % 2 ^ 32 ≠ 0) :
    planeCoord (toInt32 width) (toInt32 (0 : Nat)) cMinX cMaxX = cMinX ∧
    planeCoord (toInt32 width) (toInt32 (0 : Nat)) cMinY cMaxY = cMinY ∧
    F32.toRat cMinX = some (-3 / 2) ∧ F32.toRat cMinY = some (-3 / 2) ∧
    F32.toRat (F32.add (F32.mul cMinX cMinX) (F32.mul cMinY cMinY)) = some (9 / 2) ∧
    F32.toRat thresholdSquared = some 4 ∧
    escaped cMinX cMinY = true ∧
    escapeFraction cr ci cMinX cMinY = f0 ∧
    F32.toRat (juliaResult width 0 0 cr ci) = some 0 ∧
    Julia width 0 0 cr ci = some (0, { x := 255, y := 0, z := 0, w := 255 }) := by
  obtain ⟨hpx, hpy⟩ : planeCoord (toInt32 width) (toInt32 (0 : Nat)) cMinX cMaxX = cMinX ∧
      planeCoord (toInt32 width) (toInt32 (0 : Nat)) cMinY cMaxY = cMinY := by
    simpa [toInt32_zero] using planeCoord_zero (toInt32 width) (toInt32_ne_zero width hmod)
  have hres : juliaResult width 0 0 cr ci = f0 := by
    rw [juliaResult, hpx, hpy, escapeFraction_cMin]
    decide
  have hidx : cellIndex width 0 0 = some 0 := by
    simp [cellIndex, toInt32_zero, checkedInt32]
  have hmin : F32.toRat cMinX = some (-3 / 2) := by
    simp [cMinX, F32.toRat]; norm_num
  refine ⟨hpx, hpy, hmin, hmin, ?_, ?_, by decide, escapeFraction_cMin cr ci, ?_, ?_⟩
  · rw [show F32.add (F32.mul cMinX cMinX) (F32.mul cMinY cMinY) = .fin false 9437184 (-21)
      by decide]
    simp [F32.toRat]; norm_num
  · rw [thresholdSquared_eq]; simp [f4, F32.toRat]; norm_num
  · rw [hres]; simp [f0, F32.toRat]
  · rw [Julia, hidx, hres]
    decide

/-- C8 as amended, at the default grid 512 x 512 and the default parameter. -/
theorem origin_pixel_is_blue_witness :
    planeCoord (toInt32 (512 : Nat)) (toInt32 (0 : Nat)) cMinX cMaxX = cMinX ∧
    planeCoord (toInt32 (512 : Nat)) (toInt32 (0 : Nat)) cMinY cMaxY = cMinY ∧
    F32.toRat cMinX = some (-3 / 2) ∧ F32.toRat cMinY = some (-3 / 2) ∧
    F32.toRat (F32.add (F32.mul cMinX cMinX) (F32.mul cMinY cMinY)) = some (9 / 2) ∧
    F32.toRat thresholdSquared = some 4 ∧
    escaped cMinX cMinY = true ∧
    escapeFraction cr ci cMinX cMinY = f0 ∧
    F32.toRat (juliaResult 512 0 0 cr ci) = some 0 ∧
    Julia 512 0 0 cr ci = some (0, { x := 255, y := 0, z := 0, w := 255 }) :=
  origin_pixel_is_blue 512 512 cr ci (by decide) (by decide) (by decide)

/-- C8 as stated fails for the grid of width 2^32 and height 1: `cWidth` is
`(int)2^32 = 0`, the plane point of pixel (0, 0) is `0.0f / 0.0f`, a NaN, no
test succeeds, and the cell stored at index 0 is white. -/
theorem origin_pixel_not_blue_at_width_two_pow_32 :
    0 < 2 ^ 32 ∧ 0 < 1 ∧ toInt32 ((2 ^ 32 : Nat) : Int) = 0 ∧
    planeCoord (toInt32 ((2 ^ 32 : Nat) : Int)) (toInt32 (0 : Nat)) cMinX cMaxX = F32.nan ∧
    planeCoord (toInt32 ((2 ^ 32 : Nat) : Int)) (toInt32 (0 : Nat)) cMinY cMaxY = F32.nan ∧
    escapeFraction cr ci F32.nan F32.nan = f1 ∧
    Julia (2 ^ 32) 0 0 cr ci = some (0, { x := 255, y := 255, z := 255, w := 255 }) := by
  decide


/-! ## Facts about one dispatch -/

theorem toInt32_of_lt (n : Nat) (h : n < 2 ^ 31) : toInt32 (n : Int) = (n : Int) := by
  unfold toInt32
  omega

theorem index_lt (width height x y : Nat) (hx : x < width) (hy : y < height) :
    y * width + x < width * height := by
  have h1 : (y + 1) * width ≤ height * width := Nat.mul_le_mul_right _ hy
  have h2 : (y + 1) * width = y * width + width := by ring
  have h3 : height * width = width * height := Nat.mul_comm _ _
  omega

theorem cellIndex_eq (width height x y : Nat) (hsz : width * height < 2 ^ 31)
    (hx : x < width) (hy : y < height) :
    cellIndex width x y = some ((y * width + x : Nat) : Int) := by
  have hi := index_lt width height x y hx hy
  have hwle : width ≤ width * height := Nat.le_mul_of_pos_right _ (by omega)
  have hyw : y * width ≤ y * width + x := Nat.le_add_right _ _
  have hhle : height ≤ width * height := Nat.le_mul_of_pos_left _ (by omega)
  have e1 : ((y : Int) * (width : Int)) = ((y * width : Nat) : Int) := by push_cast; rfl
  have e2 : ((y * width : Nat) : Int) + (x : Int) = ((y * width + x : Nat) : Int) := by
    push_cast; rfl
  have c1 : checkedInt32 ((y * width : Nat) : Int) = some ((y * width : Nat) : Int) := by
    unfold checkedInt32
    rw [if_pos]
    constructor <;> omega
  have c2 : checkedInt32 ((y * width + x : Nat) : Int) = some ((y * width + x : Nat) : Int) := by
    unfold checkedInt32
    rw [if_pos]
    constructor <;> omega
  rw [cellIndex, toInt32_of_lt width (by omega), toInt32_of_lt x (by omega),
    toInt32_of_lt y (by omega), e1, c1, Option.some_bind, e2, c2]

theorem mem_workItems (gwx gwy : Nat) (p : Nat × Nat) :
    p ∈ workItems gwx gwy ↔ p.1 < gwx ∧ p.2 < gwy := by
  obtain ⟨x, y⟩ := p
  simp only [workItems, List.mem_flatMap, List.mem_range, List.mem_map, Prod.mk.injEq]
  constructor
  · rintro ⟨y', hy', x', hx', rfl, rfl⟩
    exact ⟨hx', hy'⟩
  · rintro ⟨hx, hy⟩
    exact ⟨y, hy, x, hx, rfl, rfl⟩

theorem nodup_workItems (gwx gwy : Nat) : (workItems gwx gwy).Nodup := by
  rw [workItems, List.nodup_flatMap]
  constructor
  · intro y _
    exact (List.nodup_range gwx).map (fun a b h => by simpa using h)
  · apply (List.nodup_range gwy).imp
    intro a b hab
    simp only [Function.onFun, List.disjoint_left, List.mem_map, List.mem_range, not_exists,
      not_and]
    rintro p ⟨x, _, rfl⟩ x' _ h
    simp only [Prod.mk.injEq] at h
    exact hab h.2.symm

theorem writeCell_some (buf out : List UChar4) (st : Option (Int × UChar4))
    (h : writeCell buf st = some out) :
    ∃ (j : Nat) (c : UChar4), st = some ((j : Int), c) ∧ j < buf.length ∧ out = buf.set j c := by
  unfold writeCell at h
  split at h
  · simp at h
  · rename_i i c
    split_ifs at h with hb
    obtain ⟨h0, h1⟩ := hb
    refine ⟨i.toNat, c, ?_, h1, by simpa using h.symm⟩
    rw [Int.toNat_of_nonneg h0]

theorem writeCell_of_lt (buf : List UChar4) (j : Nat) (c : UChar4) (h : j < buf.length) :
    writeCell buf (some ((j : Int), c)) = some (buf.set j c) := by
  simp [writeCell, h]

theorem runItems_length (gsize0 : Nat) (cr ci : F32) (items : List (Nat × Nat)) :
    ∀ b out, runItems gsize0 cr ci items b = some out → out.length = b.length := by
  induction items with
  | nil => intro b out h; simp [runItems] at h; rw [← h]
  | cons p rest ih =>
    intro b out h
    obtain ⟨x, y⟩ := p
    simp only [runItems, Option.bind_eq_some] at h
    obtain ⟨b1, hw, hr⟩ := h
    obtain ⟨j, c, _, _, rfl⟩ := writeCell_some _ _ _ hw
    rw [ih _ _ hr, List.length_set]

/-- A run that is defined on `bs` is defined, with the same result, on every
buffer of the same length that differs from `bs` only in cells that already
hold the result or that some work-item stores to. -/
theorem runItems_transfer (gsize0 : Nat) (cr ci : F32) (items : List (Nat × Nat)) :
    ∀ bs out cs, runItems gsize0 cr ci items bs = some out → cs.length = bs.length →
      (∀ j : Nat, cs[j]? = bs[j]? ∨ cs[j]? = out[j]? ∨
        ∃ p ∈ items, cellIndex gsize0 p.1 p.2 = some (j : Int)) →
      runItems gsize0 cr ci items cs = some out := by
  induction items with
  | nil =>
    intro bs out cs h hlen hc
    simp only [runItems, Option.some.injEq] at h
    subst h
    simp only [runItems, Option.some.injEq]
    apply List.ext_getElem?
    intro j
    rcases hc j with h | h | ⟨p, hp, _⟩
    · exact h
    · exact h
    · simp at hp
  | cons p rest ih =>
    intro bs out cs h hlen hc
    obtain ⟨x, y⟩ := p
    simp only [runItems, Option.bind_eq_some] at h
    obtain ⟨b1, hw, hr⟩ := h
    obtain ⟨i, v, hst, hi, rfl⟩ := writeCell_some _ _ _ hw
    have hidx : cellIndex gsize0 x y = some (i : Int) := by
      simp only [Julia, Option.map_eq_some', Prod.mk.injEq] at hst
      obtain ⟨a, ha, rfl, _⟩ := hst
      exact ha
    simp only [runItems, hst, writeCell_of_lt cs i v (by omega), Option.some_bind]
    apply ih (bs.set i v) out (cs.set i v) hr (by simp [hlen])
    intro j
    by_cases hj : i = j
    · left
      subst hj
      simp [List.getElem?_set, hi, hlen]
    · rcases hc j with h | h | ⟨p, hp, hpj⟩
      · left
        simp [List.getElem?_set, hj, h]
      · right; left
        simp [List.getElem?_set, hj, h]
      · rcases List.mem_cons.mp hp with rfl | hp
        · rw [hidx] at hpj
          simp only [Option.some.injEq, Nat.cast_inj] at hpj
          exact absurd hpj hj
        · right; right
          exact ⟨p, hp, hpj⟩

theorem runItems_defined (gsize0 : Nat) (cr ci : F32) (items : List (Nat × Nat)) (n : Nat)
    (hin : ∀ p ∈ items, ∃ i : Nat, cellIndex gsize0 p.1 p.2 = some (i : Int) ∧ i < n) :
    ∀ b : List UChar4, b.length = n → ∃ out, runItems gsize0 cr ci items b = some out := by
  induction items with
  | nil => intro b _; exact ⟨b, rfl⟩
  | cons p rest ih =>
    intro b hb
    obtain ⟨x, y⟩ := p
    obtain ⟨i, hi, hlt⟩ := hin (x, y) (List.mem_cons_self _ _)
    simp only [runItems, Julia, hi, Option.map_some', writeCell_of_lt b i _ (by omega),
      Option.some_bind]
    exact ih (fun p hp => hin p (List.mem_cons_of_mem _ hp)) _ (by simp [hb])

theorem runKernel_defined (width height : Nat) (cr ci : F32) (hsz : width * height < 2 ^ 31)
    (buf : List UChar4) (hb : buf.length = width * height) :
    ∃ out, runKernel width height cr ci buf = some out ∧ out.length = width * height := by
  obtain ⟨out, h⟩ := runItems_defined width cr ci (workItems width height) (width * height)
    (fun p hp => by
      obtain ⟨hx, hy⟩ := (mem_workItems _ _ p).mp hp
      exact ⟨p.2 * width + p.1, cellIndex_eq width height p.1 p.2 hsz hx hy,
        index_lt width height p.1 p.2 hx hy⟩) buf hb
  exact ⟨out, h, by rw [runItems_length _ _ _ _ _ _ h, hb]⟩

theorem cell_written (width height : Nat) (hw : 0 < width) (hsz : width * height < 2 ^ 31)
    (i : Nat) (hi : i < width * height) :
    (i % width, i / width) ∈ workItems width height ∧
      cellIndex width (i % width) (i / width) = some (i : Int) := by
  have hx : i % width < width := Nat.mod_lt _ hw
  have hy : i / width < height := Nat.div_lt_of_lt_mul hi
  refine ⟨(mem_workItems _ _ _).mpr ⟨hx, hy⟩, ?_⟩
  rw [cellIndex_eq width height _ _ hsz hx hy]
  congr 2
  rw [Nat.mul_comm]
  exact Nat.div_add_mod i width

theorem runKernel_idempotent (width height : Nat) (cr ci : F32) (buf out : List UChar4)
    (h : runKernel width height cr ci buf = some out) :
    runKernel width height cr ci out = some out :=
  runItems_transfer width cr ci _ buf out out h (runItems_length _ _ _ _ _ _ h)
    (fun _ => Or.inr (Or.inl rfl))

theorem dispatchTimes_fixed (width height : Nat) (cr ci : F32) (out : List UChar4)
    (h : runKernel width height cr ci out = some out) (n : Nat) :
    dispatchTimes width height cr ci n out = some out := by
  induction n with
  | zero => rfl
  | succ n ih => simp [dispatchTimes, h, ih]

theorem dispatchTimes_eq_runKernel (width height : Nat) (cr ci : F32) (buf : List UChar4)
    (n : Nat) (hn : 1 ≤ n) :
    dispatchTimes width height cr ci n buf = runKernel width height cr ci buf := by
  obtain ⟨k, rfl⟩ : ∃ k, n = k + 1 := ⟨n - 1, by omega⟩
  cases h : runKernel width height cr ci buf with
  | none => simp [dispatchTimes, h]
  | some out =>
    simp only [dispatchTimes, h, Option.some_bind]
    exact dispatchTimes_fixed width height cr ci out
      (runKernel_idempotent width height cr ci buf out h) k


theorem countP_eq_one_of_nodup {α : Type} [DecidableEq α] (a : α) (P : α → Bool) :
    ∀ (L : List α), L.Nodup → a ∈ L → (∀ x ∈ L, P x = true ↔ x = a) → L.countP P = 1 := by
  intro L
  induction L with
  | nil => intro _ ha; simp at ha
  | cons x L ih =>
    intro hnd ha hP
    obtain ⟨hx, hnd1⟩ := List.nodup_cons.mp hnd
    by_cases hxa : x = a
    · subst hxa
      have h0 : L.countP P = 0 := by
        rw [List.countP_eq_zero]
        intro y hy hPy
        have := (hP y (List.mem_cons_of_mem _ hy)).mp hPy
        subst this
        exact hx hy
      have hPx : P x = true := (hP x (List.mem_cons_self _ _)).mpr rfl
      simp [List.countP_cons, h0, hPx]
    · have haL : a ∈ L := by
        rcases List.mem_cons.mp ha with h | h
        · exact absurd h.symm hxa
        · exact h
      have hPx : ¬ (P x = true) := fun h => hxa ((hP x (List.mem_cons_self _ _)).mp h)
      have := ih hnd1 haL (fun y hy => hP y (List.mem_cons_of_mem _ hy))
      simp [List.countP_cons, this, hPx]

/-! ## Facts about the flag loop -/

theorem isFlag_eq_true (t : String) : isFlag t = true ↔
    t = "-d" ∨ t = "-p" ∨ t = "-i" ∨ t = "-gwx" ∨ t = "-gwy" ∨ t = "-lwx" ∨ t = "-lwy" := by
  simp [isFlag]

theorem isFlag_eq_false (t : String) : isFlag t = false ↔
    t ≠ "-d" ∧ t ≠ "-p" ∧ t ≠ "-i" ∧ t ≠ "-gwx" ∧ t ≠ "-gwy" ∧ t ≠ "-lwx" ∧ t ≠ "-lwy" := by
  simp [isFlag]

theorem parseArgs_unknown (t : String) (rest : List String) (o : Options)
    (h : isFlag t = false) :
    parseArgs (t :: rest) o = parseArgs rest { o with printUsage := true } := by
  obtain ⟨h1, h2, h3, h4, h5, h6, h7⟩ := (isFlag_eq_false t).mp h
  rw [parseArgs.eq_def]
  simp [h1, h2, h3, h4, h5, h6, h7]

theorem parseArgs_flag_last (t : String) (o : Options) (h : isFlag t = true) :
    parseArgs [t] o = o := by
  have h := (isFlag_eq_true t).mp h
  rw [parseArgs]
  split_ifs <;> first | rfl | (exfalso; tauto)

theorem parseArgs_flag_value (t v : String) (more : List String) (o : Options)
    (h : isFlag t = true) :
    parseArgs (t :: v :: more) o = parseArgs more (assign t v o) := by
  have h := (isFlag_eq_true t).mp h
  rw [parseArgs, assign]
  split_ifs <;> first | rfl | (exfalso; tauto)

/-- Induction along the flag loop: a flag with a value skips two tokens, any
other token one. -/
theorem flagLoop_induction {P : List String → Prop} (nil : P [])
    (single : ∀ t, P [t])
    (flag : ∀ t v more, isFlag t = true → P more → P (t :: v :: more))
    (unknown : ∀ t v rest, isFlag t = false → P (v :: rest) → P (t :: v :: rest)) :
    ∀ args, P args := by
  intro args
  generalize hn : args.length = n
  induction n using Nat.strong_induction_on generalizing args with
  | _ n ih =>
    match args, hn with
    | [], _ => exact nil
    | [t], _ => exact single t
    | t :: v :: rest, hn =>
      cases hf : isFlag t with
      | true => exact flag t v rest hf (ih rest.length (by simp only [List.length_cons] at hn; omega) rest rfl)
      | false => exact unknown t v rest hf (ih (v :: rest).length (by simp only [List.length_cons] at hn ⊢; omega) _ rfl)


theorem assign_printUsage (t v : String) (o : Options) :
    (assign t v o).printUsage = o.printUsage := by
  unfold assign
  split_ifs <;> rfl

theorem parseArgs_printUsage_of_true : ∀ (args : List String) (o : Options),
    o.printUsage = true → (parseArgs args o).printUsage = true := by
  apply flagLoop_induction
  · intro o h; simpa [parseArgs] using h
  · intro t o h
    cases hf : isFlag t with
    | true => rw [parseArgs_flag_last t o hf]; exact h
    | false => rw [parseArgs_unknown t [] o hf]; simp [parseArgs]
  · intro t v more hf ih o h
    rw [parseArgs_flag_value t v more o hf]
    exact ih _ (by rw [assign_printUsage]; exact h)
  · intro t v rest hf ih o h
    rw [parseArgs_unknown t _ o hf]
    exact ih _ rfl

theorem parseArgs_printUsage_of_unknown : ∀ (args : List String) (o : Options),
    (∃ t ∈ flagPositions args, isFlag t = false) → (parseArgs args o).printUsage = true := by
  apply flagLoop_induction
  · intro o h; simp [flagPositions] at h
  · intro t o h
    simp only [flagPositions, List.mem_singleton, exists_eq_left] at h
    rw [parseArgs_unknown t [] o h]; simp [parseArgs]
  · intro t v more hf ih o h
    rw [parseArgs_flag_value t v more o hf]
    apply ih
    simp only [flagPositions, hf, if_true, List.mem_cons, exists_eq_or_imp] at h
    rcases h with h | h
    · cases h
    · exact h
  · intro t v rest hf ih o h
    rw [parseArgs_unknown t _ o hf]
    exact parseArgs_printUsage_of_true _ _ rfl

theorem parseArgs_printUsage_of_flags : ∀ (args : List String) (o : Options),
    (∀ t ∈ flagPositions args, isFlag t = true) →
      (parseArgs args o).printUsage = o.printUsage := by
  apply flagLoop_induction
  · intro o _; simp [parseArgs]
  · intro t o h
    rw [parseArgs_flag_last t o (h t (by simp [flagPositions]))]
  · intro t v more hf ih o h
    rw [parseArgs_flag_value t v more o hf, ih, assign_printUsage]
    intro u hu
    exact h u (by simp [flagPositions, hf, hu])
  · intro t v rest hf ih o h
    have := h t (by simp [flagPositions, hf])
    rw [hf] at this; cases this

theorem parseArgs_dropLast : ∀ (args : List String) (o : Options),
    endsOnFlag args = true → parseArgs args o = parseArgs args.dropLast o := by
  apply flagLoop_induction
  · intro o h; simp [endsOnFlag] at h
  · intro t o h
    simp only [endsOnFlag] at h
    rw [parseArgs_flag_last t o h]
    simp [parseArgs]
  · intro t v more hf ih o h
    simp only [endsOnFlag, hf, if_true] at h
    cases more with
    | nil => simp [endsOnFlag] at h
    | cons u more =>
      rw [parseArgs_flag_value t v _ o hf, ih _ h]
      simp only [List.dropLast_cons₂]
      rw [parseArgs_flag_value t v _ o hf]
  · intro t v rest hf ih o h
    simp only [endsOnFlag, hf] at h
    rw [parseArgs_unknown t _ o hf, ih _ (by simpa using h)]
    simp only [List.dropLast_cons₂]
    rw [parseArgs_unknown t _ o hf]

/-! ## Facts about `go` -/

theorem goLoop_eq (o : Options) (lws : Option (Nat × Nat)) (left : Nat) :
    ∀ (i : Nat) (h : Host), i + left ≤ INT_MAX →
      goLoop o lws left i h =
        (dispatchTimes o.gwx o.gwy cr ci left h.buffer).map
          (fun b => { events := h.events ++
                        List.replicate left (Event.enqueueNDRangeKernel none (o.gwx, o.gwy) lws),
                      buffer := b }) := by
  induction left with
  | zero => intro i h _; simp [goLoop, dispatchTimes]
  | succ left ih =>
    intro i h hi
    cases hk : runKernel o.gwx o.gwy cr ci h.buffer with
    | none => simp [goLoop, enqueueNDRangeKernel, dispatchTimes, hk]
    | some b1 =>
      have hi1 : i + 1 ≤ INT_MAX := by omega
      simp only [goLoop, enqueueNDRangeKernel, hk, Option.map_some', Option.some_bind, hi1,
        if_true, dispatchTimes]
      rw [ih (i + 1) _ (by omega)]
      simp [List.replicate_succ]

theorem goLoop_overflow (o : Options) (lws : Option (Nat × Nat)) (left : Nat) :
    ∀ (i : Nat) (h : Host), 1 ≤ left → INT_MAX < i + left → goLoop o lws left i h = none := by
  induction left with
  | zero => intro i h h1 _; omega
  | succ left ih =>
    intro i h _ hi
    cases hk : enqueueNDRangeKernel o lws h with
    | none => simp [goLoop, hk]
    | some h1 =>
      simp only [goLoop, hk, Option.some_bind]
      split_ifs with hle
      · cases left with
        | zero => omega
        | succ left => exact ih (i + 1) h1 (by omega) (by omega)
      · rfl

theorem go_eq (o : Options) (h : Host) (hn : o.iterations ≤ INT_MAX) :
    go o h =
      (dispatchTimes o.gwx o.gwy cr ci o.iterations h.buffer).map
        (fun b => { events := h.events ++
                      [Event.setArg 0, Event.setArg 1, Event.setArg 2, Event.finish] ++
                      List.replicate o.iterations
                        (Event.enqueueNDRangeKernel none (o.gwx, o.gwy) (localWorkSize o)) ++
                      [Event.finish],
                    buffer := b }) := by
  rw [go, goLoop_eq o _ _ 0 _ (by omega)]
  simp [Option.map_map, Function.comp_def]

theorem go_overflow (o : Options) (h : Host) (hn : INT_MAX < o.iterations) : go o h = none := by
  rw [go, goLoop_overflow o _ _ 0 _ (by unfold INT_MAX at hn; omega) (by omega)]
  rfl

theorem dispatchTimes_defined (width height : Nat) (cr ci : F32) (hsz : width * height < 2 ^ 31)
    (buf : List UChar4) (hb : buf.length = width * height) (n : Nat) :
    ∃ out, dispatchTimes width height cr ci n buf = some out ∧ out.length = width * height := by
  cases n with
  | zero => exact ⟨buf, rfl, hb⟩
  | succ n =>
    rw [dispatchTimes_eq_runKernel width height cr ci buf (n + 1) (by omega)]
    exact runKernel_defined width height cr ci hsz buf hb

theorem countP_isDispatch_replicate (n : Nat) (g : Nat × Nat) (lws : Option (Nat × Nat)) :
    (List.replicate n (Event.enqueueNDRangeKernel none g lws)).countP Event.isDispatch = n := by
  induction n with
  | zero => rfl
  | succ n ih => simp [List.replicate_succ, Event.isDispatch, ih]

theorem filter_isQueueOp_replicate (n : Nat) (g : Nat × Nat) (lws : Option (Nat × Nat)) :
    (List.replicate n (Event.enqueueNDRangeKernel none g lws)).filter Event.isQueueOp =
      List.replicate n (Event.enqueueNDRangeKernel none g lws) := by
  induction n with
  | zero => rfl
  | succ n ih => simp [List.replicate_succ, Event.isQueueOp]

theorem bufferBytes_eq (gwx gwy : Nat) (hsz : gwx * gwy < 2 ^ 31) :
    bufferBytes gwx gwy = gwx * gwy * 4 := by
  unfold bufferBytes
  omega

theorem length_allocate (env : Env) (o : Options) (hsz : o.gwx * o.gwy < 2 ^ 31) :
    (allocate env o).length = o.gwx * o.gwy := by
  simp [allocate, bufferBytes_eq o.gwx o.gwy hsz]

/-- With valid platform and device indices, a repeat count below 2^31 and a
grid of fewer than 2^31 cells, the sample runs to the end and returns 0. -/
theorem runSample_defined (env : Env) (o : Options)
    (hp : 0 ≤ o.platformIndex ∧ o.platformIndex.toNat < env.platforms.length)
    (hd : 0 ≤ o.deviceIndex ∧ o.deviceIndex.toNat < env.platforms.getD o.platformIndex.toNat 0)
    (hn : o.iterations < 2 ^ 31) (hsz : o.gwx * o.gwy < 2 ^ 31) :
    ∃ r, runSample env o = some r ∧ r.status = 0 := by
  have hn1 : o.iterations ≤ INT_MAX := by unfold INT_MAX; omega
  obtain ⟨out, hout, _⟩ := dispatchTimes_defined o.gwx o.gwy cr ci hsz (allocate env o)
    (length_allocate env o hsz) o.iterations
  rw [runSample, if_pos hp, if_pos hd, go_eq o _ hn1]
  simp only [init, hout, Option.map_some']
  exact ⟨_, rfl, rfl⟩

/-! ## The claims about the dispatch and the host -/

/-- C3, as amended. For every repeat count `iterations < 2^31`, `go` followed
by `checkResults` issues, after the three `setArg` calls, exactly: `finish`,
`iterations` dispatches, `finish`, one blocking map of the whole buffer, the
image writer, one unmap; so the queue operations are `finish`, the dispatches,
`finish`, map, unmap, a `finish` lies between the last dispatch and the map,
no dispatch follows the map and the image writer runs between map and unmap.
On a grid of fewer than 2^31 cells with a buffer of that size the run is
defined. -/
theorem go_checkResults_order (o : Options) (h : Host) (hn : o.iterations < 2 ^ 31) :
    (go o h).map (checkResults o) =
      (dispatchTimes o.gwx o.gwy cr ci o.iterations h.buffer).map
        (fun b => { events := h.events ++
                      ([Event.setArg 0, Event.setArg 1, Event.setArg 2, Event.finish] ++
                       List.replicate o.iterations
                         (Event.enqueueNDRangeKernel none (o.gwx, o.gwy) (localWorkSize o)) ++
                       [Event.finish,
                        Event.enqueueMapBuffer true 0 (bufferBytes o.gwx o.gwy),
                        Event.save_image b o.gwx o.gwy filename,
                        Event.enqueueUnmapMemObject]),
                    buffer := b }) ∧
    (∀ b, ([Event.setArg 0, Event.setArg 1, Event.setArg 2, Event.finish] ++
            List.replicate o.iterations
              (Event.enqueueNDRangeKernel none (o.gwx, o.gwy) (localWorkSize o)) ++
            [Event.finish,
             Event.enqueueMapBuffer true 0 (bufferBytes o.gwx o.gwy),
             Event.save_image b o.gwx o.gwy filename,
             Event.enqueueUnmapMemObject]).filter Event.isQueueOp =
          [Event.finish] ++
            List.replicate o.iterations
              (Event.enqueueNDRangeKernel none (o.gwx, o.gwy) (localWorkSize o)) ++
            [Event.finish,
             Event.enqueueMapBuffer true 0 (bufferBytes o.gwx o.gwy),
             Event.enqueueUnmapMemObject]) ∧
    (o.gwx * o.gwy < 2 ^ 31 → h.buffer.length = o.gwx * o.gwy →
      ∃ h1, (go o h).map (checkResults o) = some h1) := by
  have hn1 : o.iterations ≤ INT_MAX := by unfold INT_MAX; omega
  refine ⟨?_, ?_, ?_⟩
  · rw [go_eq o h hn1]
    simp [Option.map_map, Function.comp_def, checkResults]
  · intro b
    simp [List.filter_append, filter_isQueueOp_replicate, Event.isQueueOp]
  · intro hsz hb
    obtain ⟨out, hout, _⟩ := dispatchTimes_defined o.gwx o.gwy cr ci hsz h.buffer hb o.iterations
    rw [go_eq o h hn1, hout]
    exact ⟨_, rfl⟩

/-- C3 as amended, for two passes over a 1 x 1 grid. -/
theorem go_checkResults_order_witness :
    (go { defaults with gwx := 1, gwy := 1, iterations := 2 } { events := [], buffer := [⟨0, 0, 0, 0⟩] }).map
        (checkResults { defaults with gwx := 1, gwy := 1, iterations := 2 }) =
      some { events :=
               [Event.setArg 0, Event.setArg 1, Event.setArg 2, Event.finish,
                Event.enqueueNDRangeKernel none (1, 1) none,
                Event.enqueueNDRangeKernel none (1, 1) none,
                Event.finish, Event.enqueueMapBuffer true 0 4,
                Event.save_image [⟨255, 0, 0, 255⟩] 1 1 "julia.bmp",
                Event.enqueueUnmapMemObject],
             buffer := [⟨255, 0, 0, 255⟩] } := by
  have h := (go_checkResults_order { defaults with gwx := 1, gwy := 1, iterations := 2 }
    { events := [], buffer := [⟨0, 0, 0, 0⟩] } (by decide)).1
  rw [h]
  decide

/-- C3 as stated fails for the repeat count `-i -1`: `iterations` is
`(size_t)-1 = 2^64 - 1`, the `int` counter of the loop overflows after 2^31
passes, and the run has no defined sequence of operations. -/
theorem go_undefined_for_minus_one :
    (parseCommandLine ["julia", "-gwx", "1", "-gwy", "1", "-i", "-1"]).iterations = 2 ^ 64 - 1 ∧
    go (parseCommandLine ["julia", "-gwx", "1", "-gwy", "1", "-i", "-1"])
      { events := [], buffer := [⟨0, 0, 0, 0⟩] } = none ∧
    main sampleEnv ["julia", "-gwx", "1", "-gwy", "1", "-i", "-1"] = none := by
  have hp : parseCommandLine ["julia", "-gwx", "1", "-gwy", "1", "-i", "-1"] =
      { defaults with gwx := 1, gwy := 1, iterations := 2 ^ 64 - 1 } := by decide
  have hov : ∀ h, go { defaults with gwx := 1, gwy := 1, iterations := 2 ^ 64 - 1 } h = none :=
    fun h => go_overflow _ h (by decide)
  refine ⟨by rw [hp], by rw [hp]; exact hov _, ?_⟩
  rw [main, hp]
  simp only [defaults, Bool.false_eq_true, if_false, runSample]
  rw [if_pos (by decide), if_pos (by decide)]
  have := hov
  simp only [defaults] at this
  rw [this]
  rfl

/-- C4. For every repeat count `iterations < 2^31`, `go` enqueues exactly
`iterations` dispatches, each with no offset (`cl::NullRange`) over the global
range `(gwx, gwy)`; on a grid of fewer than 2^31 cells with a buffer of that
size the run is defined and has that many dispatches; for `iterations = 0`
there is no dispatch and the buffer is left as it was, so that the run ends
with the buffer as allocated. -/
theorem go_dispatches (o : Options) (h : Host) (hn : o.iterations < 2 ^ 31) :
    go o h =
      (dispatchTimes o.gwx o.gwy cr ci o.iterations h.buffer).map
        (fun b => { events := h.events ++
                      [Event.setArg 0, Event.setArg 1, Event.setArg 2, Event.finish] ++
                      List.replicate o.iterations
                        (Event.enqueueNDRangeKernel none (o.gwx, o.gwy) (localWorkSize o)) ++
                      [Event.finish],
                    buffer := b }) ∧
    (o.gwx * o.gwy < 2 ^ 31 → h.buffer.length = o.gwx * o.gwy →
      ∃ h1, go o h = some h1 ∧
        (h1.events.drop h.events.length).countP Event.isDispatch = o.iterations) ∧
    (o.iterations = 0 →
      go o h = some { events := h.events ++
                        [Event.setArg 0, Event.setArg 1, Event.setArg 2, Event.finish,
                         Event.finish],
                      buffer := h.buffer }) ∧
    (o.iterations = 0 → ∀ env : Env,
      (0 ≤ o.platformIndex ∧ o.platformIndex.toNat < env.platforms.length) →
      (0 ≤ o.deviceIndex ∧
        o.deviceIndex.toNat < env.platforms.getD o.platformIndex.toNat 0) →
      (runSample env o).map (fun r => r.buffer) = some (some (allocate env o))) ∧
    defaults.iterations = 16 := by
  have hn1 : o.iterations ≤ INT_MAX := by unfold INT_MAX; omega
  refine ⟨go_eq o h hn1, ?_, ?_, ?_, rfl⟩
  · intro hsz hb
    obtain ⟨out, hout, _⟩ := dispatchTimes_defined o.gwx o.gwy cr ci hsz h.buffer hb o.iterations
    rw [go_eq o h hn1, hout]
    refine ⟨_, rfl, ?_⟩
    simp [List.append_assoc, List.countP_append, countP_isDispatch_replicate, Event.isDispatch]
  · intro h0
    rw [go_eq o h hn1, h0]
    simp [dispatchTimes]
  · intro h0 env hp hd
    rw [runSample, if_pos hp, if_pos hd, go_eq o _ hn1, h0]
    simp [dispatchTimes, init, checkResults]

/-- C4, for no pass over the default grid. -/
theorem go_dispatches_witness :
    go { defaults with iterations := 0 } { events := [], buffer := [] } =
      some { events := [Event.setArg 0, Event.setArg 1, Event.setArg 2, Event.finish,
                        Event.finish],
             buffer := [] } :=
  (go_dispatches { defaults with iterations := 0 } { events := [], buffer := [] }
    (by decide)).2.2.1 rfl

/-- C5. For every command line in which the flag loop meets, in flag position,
a token that is none of the seven flags, `main` prints the usage text and
returns -1, and the usage text is the only event of the run: no platform or
device is selected, no buffer allocated and nothing dispatched. -/
theorem unknown_flag_prints_usage (env : Env) (prog : String) (args : List String)
    (h : ∃ t ∈ flagPositions args, isFlag t = false) :
    main env (prog :: args) = some { status := -1, events := [Event.usage], buffer := none } := by
  have hp : (parseCommandLine (prog :: args)).printUsage = true :=
    parseArgs_printUsage_of_unknown args defaults h
  simp [main, hp]

/-- C5, for an unknown token after a well-formed flag. -/
theorem unknown_flag_prints_usage_witness :
    main sampleEnv ["julia", "-i", "3", "-x", "-gwx", "8"] =
      some { status := -1, events := [Event.usage], buffer := none } :=
  unknown_flag_prints_usage sampleEnv "julia" ["-i", "3", "-x", "-gwx", "8"]
    ⟨"-x", by decide, by decide⟩

/-- C6 as stated fails for `julia -d`: the last token is the flag `-d` with no
value after it, the test `++i < argc` fails and nothing else happens, so the
usage text is not asked for and the sample runs with the defaults and
returns 0. -/
theorem missing_value_runs_sample :
    endsOnFlag ["-d"] = true ∧
    parseCommandLine ["julia", "-d"] = defaults ∧
    main sampleEnv ["julia", "-d"] ≠
      some { status := -1, events := [Event.usage], buffer := none } ∧
    (main sampleEnv ["julia", "-d"]).map (fun r => r.status) = some 0 := by
  have hp : parseCommandLine ["julia", "-d"] = defaults := by decide
  have hm : main sampleEnv ["julia", "-d"] = runSample sampleEnv defaults := by
    rw [main, hp, if_neg (by decide)]
  obtain ⟨r, hr, hs⟩ := runSample_defined sampleEnv defaults (by decide) (by decide)
    (by decide) (by decide)
  refine ⟨by decide, hp, ?_, ?_⟩
  · rw [hm, hr]
    intro hc
    rw [Option.some.injEq] at hc
    rw [hc] at hs
    cases hs
  · rw [hm, hr, Option.map_some', hs]

/-- C6, as amended. For every command line whose flag loop ends on a
recognised flag with no value token after it, that flag is ignored: the
options, and with them the whole run of `main`, are those of the command line
without its last token; when every token read in flag position is a flag, the
usage text is not printed and the sample is run. -/
theorem missing_value_is_ignored (env : Env) (prog : String) (args : List String)
    (h : endsOnFlag args = true) :
    parseCommandLine (prog :: args) = parseCommandLine (prog :: args.dropLast) ∧
    main env (prog :: args) = main env (prog :: args.dropLast) ∧
    ((∀ t ∈ flagPositions args, isFlag t = true) →
      (parseCommandLine (prog :: args)).printUsage = false ∧
      main env (prog :: args) = runSample env (parseCommandLine (prog :: args))) := by
  have hp : parseCommandLine (prog :: args) = parseCommandLine (prog :: args.dropLast) :=
    parseArgs_dropLast args defaults h
  refine ⟨hp, by simp only [main, hp], ?_⟩
  intro hall
  have hu : (parseCommandLine (prog :: args)).printUsage = false :=
    parseArgs_printUsage_of_flags args defaults hall
  exact ⟨hu, by simp [main, hu]⟩

/-- C6 as amended, for `julia -gwx 8 -i`. -/
theorem missing_value_is_ignored_witness :
    parseCommandLine ["julia", "-gwx", "8", "-i"] = parseCommandLine ["julia", "-gwx", "8"] ∧
    main sampleEnv ["julia", "-gwx", "8", "-i"] = main sampleEnv ["julia", "-gwx", "8"] ∧
    ((∀ t ∈ flagPositions ["-gwx", "8", "-i"], isFlag t = true) →
      (parseCommandLine ["julia", "-gwx", "8", "-i"]).printUsage = false ∧
      main sampleEnv ["julia", "-gwx", "8", "-i"] =
        runSample sampleEnv (parseCommandLine ["julia", "-gwx", "8", "-i"])) :=
  missing_value_is_ignored sampleEnv "julia" ["-gwx", "8", "-i"] (by decide)

theorem assign_grid_pos (t v : String) (o : Options) (hx : 0 < o.gwx) (hy : 0 < o.gwy)
    (hv : t = "-gwx" ∨ t = "-gwy" → toSizeT (strtol v) ≠ 0) :
    0 < (assign t v o).gwx ∧ 0 < (assign t v o).gwy := by
  unfold assign
  split_ifs with h1 h2 h3 h4 h5 h6 h7
  all_goals first
    | exact ⟨hx, hy⟩
    | exact ⟨Nat.pos_of_ne_zero (hv (Or.inl h4)), hy⟩
    | exact ⟨hx, Nat.pos_of_ne_zero (hv (Or.inr h5))⟩

theorem parseArgs_grid_pos : ∀ (args : List String) (o : Options),
    (∀ (i : Nat) (v : String), (args[i]? = some "-gwx" ∨ args[i]? = some "-gwy") →
      args[i + 1]? = some v → toSizeT (strtol v) ≠ 0) →
    0 < o.gwx → 0 < o.gwy → 0 < (parseArgs args o).gwx ∧ 0 < (parseArgs args o).gwy := by
  apply flagLoop_induction
  · intro o _ hx hy
    simpa [parseArgs] using And.intro hx hy
  · intro t o _ hx hy
    cases hf : isFlag t with
    | true => rw [parseArgs_flag_last t o hf]; exact ⟨hx, hy⟩
    | false => rw [parseArgs_unknown t [] o hf]; simpa [parseArgs] using And.intro hx hy
  · intro t v more hf ih o hv hx hy
    rw [parseArgs_flag_value t v more o hf]
    obtain ⟨gx, gy⟩ := assign_grid_pos t v o hx hy (fun ht => hv 0 v (by simpa using ht) (by simp))
    exact ih _ (fun i u hi hu => hv (i + 2) u (by simpa using hi) (by simpa using hu)) gx gy
  · intro t v rest hf ih o hv hx hy
    rw [parseArgs_unknown t _ o hf]
    exact ih _ (fun i u hi hu => hv (i + 1) u (by simpa using hi) (by simpa using hu)) hx hy

/-- C7 as stated fails for `julia -gwx 0`: the command line is accepted, the
width is 0, and the sample runs with it to the end and returns 0. -/
theorem zero_width_is_accepted :
    (parseCommandLine ["julia", "-gwx", "0"]).printUsage = false ∧
    (parseCommandLine ["julia", "-gwx", "0"]).gwx = 0 ∧
    (main sampleEnv ["julia", "-gwx", "0"]).map (fun r => r.status) = some 0 := by
  have hp : parseCommandLine ["julia", "-gwx", "0"] = { defaults with gwx := 0 } := by decide
  obtain ⟨r, hr, hs⟩ := runSample_defined sampleEnv { defaults with gwx := 0 } (by decide)
    (by decide) (by decide) (by decide)
  refine ⟨by rw [hp]; rfl, by rw [hp], ?_⟩
  rw [main, hp, if_neg (by decide), hr, Option.map_some', hs]

/-- C7, as amended. For every command line in which every token that directly
follows a `-gwx` or `-gwy` token is converted by `strtol` and the assignment to
a `size_t` to a value other than 0, the width `gwx` and the height `gwy` left
by the flag loop are greater than 0; with no such flag they are the default
512. -/
theorem grid_positive_when_values_nonzero (prog : String) (args : List String)
    (hacc : (parseCommandLine (prog :: args)).printUsage = false)
    (hv : ∀ (i : Nat) (v : String), (args[i]? = some "-gwx" ∨ args[i]? = some "-gwy") →
      args[i + 1]? = some v → toSizeT (strtol v) ≠ 0) :
    0 < (parseCommandLine (prog :: args)).gwx ∧ 0 < (parseCommandLine (prog :: args)).gwy ∧
    defaults.gwx = 512 ∧ defaults.gwy = 512 := by
  obtain ⟨hx, hy⟩ := parseArgs_grid_pos args defaults hv (by decide) (by decide)
  exact ⟨hx, hy, rfl, rfl⟩

/-- C7 as amended, for `julia -gwx 8 -gwy 4`. -/
theorem grid_positive_when_values_nonzero_witness :
    0 < (parseCommandLine ["julia", "-gwx", "8", "-gwy", "4"]).gwx ∧
    0 < (parseCommandLine ["julia", "-gwx", "8", "-gwy", "4"]).gwy ∧
    defaults.gwx = 512 ∧ defaults.gwy = 512 :=
  grid_positive_when_values_nonzero "julia" ["-gwx", "8", "-gwy", "4"] (by decide)
    (by
      intro i v hi hv
      match i, hi, hv with
      | 0, _, hv => simp at hv; subst hv; decide
      | 1, hi, _ => simp at hi
      | 2, _, hv => simp at hv; subst hv; decide
      | 3, hi, _ => simp at hi
      | n + 4, hi, _ => simp at hi)

/-- C9. A dispatch over the full grid is idempotent: for every grid, parameter
and initial buffer and every two repeat counts `n, m >= 1`, the buffer after
`n` dispatches is the buffer after `m` dispatches and the buffer after a single
one.  On a grid of fewer than 2^31 cells with a buffer of that size the
dispatches are defined and their result is the same from every initial
content. -/
theorem dispatch_idempotent (width height : Nat) (cr ci : F32) (buf : List UChar4)
    (n m : Nat) (hw : 0 < width) (hh : 0 < height) (hn : 1 ≤ n) (hm : 1 ≤ m) :
    dispatchTimes width height cr ci n buf = dispatchTimes width height cr ci m buf ∧
    dispatchTimes width height cr ci n buf = runKernel width height cr ci buf ∧
    (width * height < 2 ^ 31 → buf.length = width * height →
      ∃ out, dispatchTimes width height cr ci n buf = some out ∧
        out.length = width * height ∧
        ∀ other : List UChar4, other.length = width * height →
          dispatchTimes width height cr ci m other = some out) := by
  have e1 := dispatchTimes_eq_runKernel width height cr ci buf n hn
  have e2 := dispatchTimes_eq_runKernel width height cr ci buf m hm
  refine ⟨by rw [e1, e2], e1, ?_⟩
  intro hsz hb
  obtain ⟨out, hout, hlen⟩ := runKernel_defined width height cr ci hsz buf hb
  refine ⟨out, by rw [e1, hout], hlen, ?_⟩
  intro other ho
  rw [dispatchTimes_eq_runKernel width height cr ci other m hm]
  apply runItems_transfer width cr ci _ buf out other hout (by rw [ho, hb])
  intro j
  by_cases hj : j < width * height
  · right; right
    obtain ⟨hmem, hidx⟩ := cell_written width height hw hsz j hj
    exact ⟨_, hmem, hidx⟩
  · left
    rw [List.getElem?_eq_none (by omega), List.getElem?_eq_none (by omega)]

/-- C9, for one and three dispatches over a 2 x 1 grid. -/
theorem dispatch_idempotent_witness :
    dispatchTimes 2 1 cr ci 1 [⟨1, 2, 3, 4⟩, ⟨5, 6, 7, 8⟩] =
      dispatchTimes 2 1 cr ci 3 [⟨1, 2, 3, 4⟩, ⟨5, 6, 7, 8⟩] ∧
    dispatchTimes 2 1 cr ci 1 [⟨1, 2, 3, 4⟩, ⟨5, 6, 7, 8⟩] =
      runKernel 2 1 cr ci [⟨1, 2, 3, 4⟩, ⟨5, 6, 7, 8⟩] ∧
    runKernel 2 1 cr ci [⟨1, 2, 3, 4⟩, ⟨5, 6, 7, 8⟩] =
      some [⟨255, 0, 0, 255⟩, ⟨255, 63, 15, 255⟩] :=
  ⟨(dispatch_idempotent 2 1 cr ci _ 1 3 (by decide) (by decide) (by decide) (by decide)).1,
   (dispatch_idempotent 2 1 cr ci _ 1 3 (by decide) (by decide) (by decide) (by decide)).2.1,
   by decide⟩

/-- C10. On a grid of `width * height < 2^31` cells, for every pixel of it: the
divisor `cWidth` is not zero; the index `y * cWidth + x` the work-item stores to
is `y * width + x`, below `width * height`, the number of cells of the
`gwx * gwy * 4` bytes allocated and mapped; the index map is injective on the
grid and reaches every index below `width * height`, each index being that of
exactly one work-item of the dispatch; and a dispatch on a buffer of that size
is defined, that is, no store falls outside the buffer. -/
theorem cell_index_in_bounds_and_bijective (width height : Nat) (hw : 0 < width)
    (hh : 0 < height) (hsz : width * height < 2 ^ 31) :
    toInt32 (width : Int) ≠ 0 ∧
    bufferBytes width height = width * height * 4 ∧
    (∀ x y, x < width → y < height →
      cellIndex width x y = some ((y * width + x : Nat) : Int) ∧
        y * width + x < width * height) ∧
    (∀ x y x' y', x < width → y < height → x' < width → y' < height →
      cellIndex width x y = cellIndex width x' y' → x = x' ∧ y = y') ∧
    (∀ i, i < width * height →
      ∃ x y, x < width ∧ y < height ∧ cellIndex width x y = some (i : Int)) ∧
    (∀ i, i < width * height →
      (workItems width height).countP
        (fun p => decide (cellIndex width p.1 p.2 = some (i : Int))) = 1) ∧
    (∀ (cr ci : F32) (buf : List UChar4), buf.length = width * height →
      ∃ out, runKernel width height cr ci buf = some out ∧ out.length = width * height) := by
  have hwle : width ≤ width * height := Nat.le_mul_of_pos_right _ hh
  have hinj : ∀ x y x' y', x < width → y < height → x' < width → y' < height →
      cellIndex width x y = cellIndex width x' y' → x = x' ∧ y = y' := by
    intro x y x' y' hx hy hx' hy' he
    rw [cellIndex_eq width height x y hsz hx hy, cellIndex_eq width height x' y' hsz hx' hy'] at he
    have he' : y * width + x = y' * width + x' := by exact_mod_cast Option.some.inj he
    have hmod := congrArg (· % width) he'
    have hdiv := congrArg (· / width) he'
    simp only [Nat.mul_add_mod_of_lt, Nat.add_mod, Nat.mul_mod_left, zero_add, Nat.mod_mod] at hmod
    rw [Nat.mod_eq_of_lt hx, Nat.mod_eq_of_lt hx'] at hmod
    simp only [Nat.add_comm (_ * width), Nat.add_mul_div_right _ _ hw,
      Nat.div_eq_of_lt hx, Nat.div_eq_of_lt hx', zero_add] at hdiv
    exact ⟨hmod, hdiv⟩
  refine ⟨?_, bufferBytes_eq width height hsz, ?_, hinj, ?_, ?_, ?_⟩
  · rw [toInt32_of_lt width (by omega)]
    omega
  · intro x y hx hy
    exact ⟨cellIndex_eq width height x y hsz hx hy, index_lt width height x y hx hy⟩
  · intro i hi
    obtain ⟨hmem, hidx⟩ := cell_written width height hw hsz i hi
    obtain ⟨hx, hy⟩ := (mem_workItems _ _ _).mp hmem
    exact ⟨_, _, hx, hy, hidx⟩
  · intro i hi
    obtain ⟨hmem, hidx⟩ := cell_written width height hw hsz i hi
    apply countP_eq_one_of_nodup (i % width, i / width) _ _ (nodup_workItems width height) hmem
    intro p hp
    obtain ⟨hx, hy⟩ := (mem_workItems _ _ _).mp hp
    obtain ⟨hx0, hy0⟩ := (mem_workItems _ _ _).mp hmem
    simp only [decide_eq_true_eq]
    constructor
    · intro h
      obtain ⟨h1, h2⟩ := hinj p.1 p.2 _ _ hx hy hx0 hy0 (by rw [h, hidx])
      exact Prod.ext h1 h2
    · rintro rfl
      exact hidx
  · intro cr ci buf hb
    exact runKernel_defined width height cr ci hsz buf hb

/-- C10, for the default grid 512 x 512. -/
theorem cell_index_in_bounds_and_bijective_witness :
    toInt32 ((512 : Nat) : Int) ≠ 0 ∧ bufferBytes 512 512 = 512 * 512 * 4 ∧
    cellIndex 512 511 511 = some ((511 * 512 + 511 : Nat) : Int) ∧
    511 * 512 + 511 < 512 * 512 :=
  ⟨(cell_index_in_bounds_and_bijective 512 512 (by decide) (by decide) (by decide)).1,
   (cell_index_in_bounds_and_bijective 512 512 (by decide) (by decide) (by decide)).2.1,
   ((cell_index_in_bounds_and_bijective 512 512 (by decide) (by decide) (by decide)).2.2.1
      511 511 (by decide) (by decide)).1,
   ((cell_index_in_bounds_and_bijective 512 512 (by decide) (by decide) (by decide)).2.2.1
      511 511 (by decide) (by decide)).2⟩

end JuliaSample
